import Mathlib

/-!
Verification of the rate-limiting chat server
(`src/rateLimiter.ts`, `src/server.ts`, `src/config.ts`, and the
token-bucket variant server) against its design specification.

The TypeScript code is shallowly embedded: Redis sorted-set state is a
sorted list of millisecond timestamps, each awaited Redis operation is an
explicit state transformation that may be made to fail by an error oracle
(modelling an unreachable or erroring store), and the in-process worker
pool plus queue is a state machine driven by handler and completion
events of the single-threaded event loop.
-/

namespace RateLimitServer

/-! ## Configuration (src/config.ts) -/

structure TierConfig where
  maxRequests : Nat
  windowMs : Nat
deriving Repr, DecidableEq

/-- config.rateLimit.guest -/
def guestTier : TierConfig := ⟨2, 60000⟩

/-- config.rateLimit.authenticated -/
def authenticatedTier : TierConfig := ⟨8, 60000⟩

/-- Tier selection in checkRateLimit: authenticated or guest. -/
def limitConfig (isAuthenticated : Bool) : TierConfig :=
  if isAuthenticated then authenticatedTier else guestTier

/-- config.request.timeoutMs -/
def requestTimeoutMs : Nat := 5000

/-- config.workerPool.concurrency -/
def poolConcurrency : Nat := 4

/-- config.workerPool.maxQueueSize -/
def poolMaxQueueSize : Nat := 200

/-! ## Redis sorted-set state for one rate_limit:userId key

The sorted set maps member strings to scores.  checkRateLimit only ever
adds the member toString(now) with score now, so the set is faithfully a
finite set of timestamps, kept as an ascending list.  The key TTL set by
expire is tracked so that frame effects on it can be stated. -/

structure RedisKeyState where
  entries : List Nat
  ttl : Option Nat
deriving Repr, DecidableEq

/-- zRemRangeByScore key 0 (now - windowMs): removes every member whose
score lies in the closed interval from 0 to now - windowMs (computed in
JavaScript integer arithmetic, so an empty interval when now < windowMs).
A score t is removed iff t + windowMs ≤ now. -/
def zRemWindow (now windowMs : Nat) (es : List Nat) : List Nat :=
  es.filter (fun t => now < t + windowMs)

/-- zAdd key {score: now, value: toString(now)}: sorted-set insert.  If
the member already exists its score is updated (to the same value here),
so a duplicate timestamp does not grow the set. -/
def zAddNow (now : Nat) : List Nat → List Nat
  | [] => [now]
  | t :: ts =>
    if now = t then t :: ts
    else if now < t then now :: t :: ts
    else t :: zAddNow now ts

/-- expire key (ceil(windowMs / 1000) + 10). -/
def expireTtl (windowMs : Nat) : Nat := (windowMs + 999) / 1000 + 10

/-- The awaited Redis operations issued by checkRateLimit, in order of
appearance.  An error oracle assigns to each the outcome of its round
trip; any true flag makes that await throw into the catch block. -/
inductive ROp where
  | zrem | zcard | zadd | expire | zrange
deriving Repr, DecidableEq

structure RateLimitResult where
  allowed : Bool
  remainingRequests : Nat
  resetTime : Nat
deriving Repr, DecidableEq

/-- Tail of the try block of checkRateLimit (src/rateLimiter.ts lines
56-78): compute remainingRequests as max(0, maxRequests - currentCount -
(allowed ? 1 : 0)) (truncated Nat subtraction computes the max with 0),
and resetTime from the oldest surviving entry (zRange key 0 0, issued
only when currentCount > 0, on the post-add state s3). -/
def finishCheck (maxRequests windowMs now currentCount : Nat) (allowed : Bool)
    (fails : ROp → Bool) (s3 : RedisKeyState) :
    Except RedisKeyState (RateLimitResult × RedisKeyState) :=
  let remainingRequests := maxRequests - currentCount - (if allowed then 1 else 0)
  if 0 < currentCount then
    if fails .zrange then .error s3 else
    let resetTime :=
      match s3.entries.head? with
      | some oldest => oldest + windowMs
      | none => now + windowMs
    .ok (⟨allowed, remainingRequests, resetTime⟩, s3)
  else
    .ok (⟨allowed, remainingRequests, now + windowMs⟩, s3)

/-- The try block of checkRateLimit (src/rateLimiter.ts lines 35-78),
for one key, parametrised by the tier limits, the current time now, the
error oracle and the key state.  An error surfaces as .error carrying the
state as mutated so far (Redis does not roll back). -/
def checkRateLimitE (maxRequests windowMs now : Nat) (fails : ROp → Bool)
    (s : RedisKeyState) : Except RedisKeyState (RateLimitResult × RedisKeyState) :=
  if fails .zrem then .error s else
  let s1 : RedisKeyState := { s with entries := zRemWindow now windowMs s.entries }
  if fails .zcard then .error s1 else
  let currentCount := s1.entries.length
  if currentCount < maxRequests then
    if fails .zadd then .error s1 else
    let s2 : RedisKeyState := { s1 with entries := zAddNow now s1.entries }
    if fails .expire then .error s2 else
    finishCheck maxRequests windowMs now currentCount true fails
      { s2 with ttl := some (expireTtl windowMs) }
  else
    finishCheck maxRequests windowMs now currentCount false fails s1

/-- checkRateLimit with its catch block (lines 79-87): on any Redis
error, fail open with allowed, remaining = maxRequests and
resetTime = now + windowMs. -/
def checkRateLimit (maxRequests windowMs now : Nat) (fails : ROp → Bool)
    (s : RedisKeyState) : RateLimitResult × RedisKeyState :=
  match checkRateLimitE maxRequests windowMs now fails s with
  | .ok r => r
  | .error sErr => (⟨true, maxRequests, now + windowMs⟩, sErr)

/-- An error-free oracle: every Redis round trip succeeds. -/
def noFail : ROp → Bool := fun _ => false

/-- checkRateLimit when Redis is healthy. -/
def checkRateLimitOk (maxRequests windowMs now : Nat) (s : RedisKeyState) :
    RateLimitResult × RedisKeyState :=
  checkRateLimit maxRequests windowMs now noFail s

/-- A sequence of checkRateLimit calls for one identity against healthy
Redis, one call per listed time, returning the allowed verdicts. -/
def checkSeq (maxRequests windowMs : Nat) : List Nat → RedisKeyState → List Bool × RedisKeyState
  | [], s => ([], s)
  | t :: ts, s =>
    let r := checkRateLimitOk maxRequests windowMs t s
    let rest := checkSeq maxRequests windowMs ts r.2
    (r.1.allowed :: rest.1, rest.2)

/-- Two concurrent checkRateLimit calls A (at time tA) and B (at time
tB) for the same identity against healthy Redis, under the event-loop
interleaving in which both callers complete their zRemRangeByScore and
zCard round trips before either performs its zAdd.  Each await in
checkRateLimit yields to the event loop, so this schedule is realizable.
Returns the two allowed verdicts and the final key state. -/
def interleavedPair (maxRequests windowMs tA tB : Nat) (s : RedisKeyState) :
    (Bool × Bool) × RedisKeyState :=
  let sA : RedisKeyState := { s with entries := zRemWindow tA windowMs s.entries }
  let sB : RedisKeyState := { sA with entries := zRemWindow tB windowMs sA.entries }
  let cA := sB.entries.length
  let cB := sB.entries.length
  let allowedA : Bool := cA < maxRequests
  let allowedB : Bool := cB < maxRequests
  let s1 : RedisKeyState :=
    if allowedA then
      { sB with entries := zAddNow tA sB.entries, ttl := some (expireTtl windowMs) }
    else sB
  let s2 : RedisKeyState :=
    if allowedB then
      { s1 with entries := zAddNow tB s1.entries, ttl := some (expireTtl windowMs) }
    else s1
  ((allowedA, allowedB), s2)

/-- Number of timestamps in A lying in the trailing window of length w
ending at t: those τ with t - w < τ ≤ t in integer arithmetic. -/
def windowCount (w t : Nat) (A : List Nat) : Nat :=
  A.countP (fun τ => decide (t < τ + w) && decide (τ ≤ t))

/-- The call times of the allowed checks in a sequence of checkRateLimit
calls for one identity against healthy Redis. -/
def allowedList (maxRequests windowMs : Nat) : List Nat → RedisKeyState → List Nat
  | [], _ => []
  | t :: ts, s =>
    let r := checkRateLimitOk maxRequests windowMs t s
    if r.1.allowed then t :: allowedList maxRequests windowMs ts r.2
    else allowedList maxRequests windowMs ts r.2

/-! ## Worker pool and request queue (src/server.ts lines 86-169)

The server is single-threaded JavaScript: each synchronous stretch of
code runs to completion.  The shared mutable state is activeWorkers and
requestQueue; the asynchronous worker bodies re-enter only through their
finally blocks, modelled as completion events. -/

structure Item where
  message : String
  timestamp : Nat
deriving Repr, DecidableEq

structure PoolState where
  activeWorkers : Nat
  requestQueue : List Item
deriving Repr, DecidableEq

/-- The while loop of processNext (lines 113-140): while
activeWorkers < concurrency and the queue is nonempty, shift the head
item and increment activeWorkers (the spawned async body becomes a
pending completion event). -/
def drainLoop (concurrency : Nat) : Nat → List Item → Nat × List Item
  | a, [] => (a, [])
  | a, i :: rest =>
    if a < concurrency then drainLoop concurrency (a + 1) rest
    else (a, i :: rest)

/-- processNext as a state transformation. -/
def processNext (concurrency : Nat) (s : PoolState) : PoolState :=
  let r := drainLoop concurrency s.activeWorkers s.requestQueue
  ⟨r.1, r.2⟩

/-- processImmediate (lines 143-169): if activeWorkers >= concurrency
return null (false) leaving the state untouched, otherwise claim a slot
by incrementing activeWorkers.  The started work becomes a pending
completion event; the queue is never touched. -/
def processImmediate (concurrency : Nat) (s : PoolState) : Bool × PoolState :=
  if s.activeWorkers ≥ concurrency then (false, s)
  else (true, { s with activeWorkers := s.activeWorkers + 1 })

/-- A worker finishing (the finally blocks of processNext and
processImmediate bodies): decrement activeWorkers, then run processNext
to drain queued items into the freed slot. -/
def completeWorker (concurrency : Nat) (s : PoolState) : PoolState :=
  processNext concurrency { s with activeWorkers := s.activeWorkers - 1 }

/-- The HTTP-visible verdict a handler produces synchronously.  pending
means the response will be produced later by the racing completion or
timer (lines 208-224 and 266-281). -/
inductive Verdict where
  | pending
  | rateLimited429 (remainingRequests resetTime cooldownSeconds : Nat)
  | overloaded429 (queueLength concurrency : Nat)
  | queueFull503
deriving Repr, DecidableEq

/-- Ceiling of (resetTime - now) / 1000 clamped at 0, as computed by
Math.max(0, Math.ceil((resetTime - Date.now()) / 1000)). -/
def cooldownSecs (resetTime now : Nat) : Nat := (resetTime - now + 999) / 1000

/-- The /chat/with-rate-limit handler after checkRateLimit returned rl
(lines 185-206): deny with 429 and a cooldown when rate-limited; else
processImmediate, and when it returns null answer 429 overloaded
carrying requestQueue.length and concurrency.  This path never touches
the queue. -/
def withRateLimitHandler (concurrency : Nat) (rl : RateLimitResult) (now : Nat)
    (_it : Item) (s : PoolState) : Verdict × PoolState :=
  if rl.allowed = false then
    (.rateLimited429 0 rl.resetTime (cooldownSecs rl.resetTime now), s)
  else
    let r := processImmediate concurrency s
    if r.1 then (.pending, r.2)
    else (.overloaded429 s.requestQueue.length concurrency, s)

/-- The /chat/without-rate-limit handler (lines 229-257): reject with
503 when requestQueue.length >= maxQueueSize, else push the item and run
processNext. -/
def withoutRateLimitHandler (concurrency maxQueueSize : Nat) (it : Item)
    (s : PoolState) : Verdict × PoolState :=
  if s.requestQueue.length ≥ maxQueueSize then (.queueFull503, s)
  else (.pending, processNext concurrency { s with requestQueue := s.requestQueue ++ [it] })

/-- Event-loop events touching the pool state: the two handlers and a
worker completion. -/
inductive Ev where
  | gated (rl : RateLimitResult) (now : Nat) (it : Item)
  | unthrottled (it : Item)
  | workerDone
deriving Repr, DecidableEq

def stepEv (concurrency maxQueueSize : Nat) (s : PoolState) : Ev → PoolState
  | .gated rl now it => (withRateLimitHandler concurrency rl now it s).2
  | .unthrottled it => (withoutRateLimitHandler concurrency maxQueueSize it s).2
  | .workerDone => completeWorker concurrency s

/-- The pool state after a sequence of events from server start
(activeWorkers = 0, empty queue). -/
def runEvents (concurrency maxQueueSize : Nat) (evs : List Ev) : PoolState :=
  evs.foldl (stepEv concurrency maxQueueSize) ⟨0, []⟩

/-! ## Completion, timeout and the race (src/server.ts lines 118-138,
151-164, 259-268) -/

/-- Outcome a worker signals on its completion channel. -/
inductive WorkOutcome where
  | res (response : String)
  | timedOut
deriving Repr, DecidableEq

/-- The completion check in the worker body (lines 122-127 and 154-157):
elapsed = completion time minus the item timestamp; if
elapsed >= timeoutMs reject with a timeout, discarding the computed
result, else resolve with it. -/
def completeWork (timeoutMs t0 t1 : Nat) (response : String) : WorkOutcome :=
  if t1 - t0 ≥ timeoutMs then .timedOut else .res response

/-- A one-shot completion cell: the first signal settles it, any later
signal is a no-op (the semantics of a settled Promise.race). -/
def settleCell (c : Option WorkOutcome) (o : WorkOutcome) : Option WorkOutcome :=
  match c with
  | none => some o
  | some x => some x

/-- Promise.race of the item completion (at time t1, outcome o) against
the timer started at enqueue time t0 and firing at t0 + timeoutMs: the
earlier signal settles the race.  On a tie both signals are timeouts
(elapsed = timeoutMs makes the worker itself reject with a timeout), so
either order gives the same verdict. -/
def raceSettled (timeoutMs t0 t1 : Nat) (o : WorkOutcome) : WorkOutcome :=
  if t1 < t0 + timeoutMs then o else .timedOut

/-- HTTP response of the awaiting handler (lines 266-281): a resolved
result is sent as 200, a timeout rejection as 408. -/
inductive RacedResponse where
  | ok200 (body : String)
  | timeout408
deriving Repr, DecidableEq

def respondWith : WorkOutcome → RacedResponse
  | .res b => .ok200 b
  | .timedOut => .timeout408

/-- End-to-end response of the unthrottled path for an item enqueued at
t0 whose work function completes at t1 with the given response body. -/
def unthrottledResponse (timeoutMs t0 t1 : Nat) (response : String) : RacedResponse :=
  respondWith (raceSettled timeoutMs t0 t1 (completeWork timeoutMs t0 t1 response))

/-! ## Token-bucket variant (/chat handler of the token-bucket server)

State stored at key rate:userId as JSON {tokens, lastRefill}; tokens is
a JavaScript number, modelled as an exact rational. -/

structure BucketState where
  tokens : ℚ
  lastRefill : Nat
deriving Repr, DecidableEq

/-- The refill phase of one /chat call: on a missing key start with
tokens = limit and lastRefill = now; otherwise add elapsed seconds times
refillRate = limit / 60 to the stored tokens, capped at limit, and move
lastRefill to now. -/
def refillState (limit now : Nat) : Option BucketState → BucketState
  | none => ⟨(limit : ℚ), now⟩
  | some ⟨tk, lr⟩ =>
    ⟨min (limit : ℚ) (tk + ((now : ℚ) - (lr : ℚ)) / 1000 * ((limit : ℚ) / 60)), now⟩

/-- One /chat call of the token-bucket server for a user of the given
tier limit at time now: refill, then consume one token iff at least one
is available; the new state is stored in either branch. -/
def chatTokenBucket (limit now : Nat) (st : Option BucketState) : Bool × BucketState :=
  let b := refillState limit now st
  if 1 ≤ b.tokens then (true, ⟨b.tokens - 1, b.lastRefill⟩)
  else (false, b)

/-- A sequence of /chat calls, one per listed time, starting from the
given stored state. -/
def bucketRun (limit : Nat) : Option BucketState → List Nat → Option BucketState
  | st, [] => st
  | st, t :: ts => bucketRun limit (some (chatTokenBucket limit t st).2) ts

/-- The stored state after a sequence of /chat calls starting from an
absent key. -/
def bucketTrace (limit : Nat) (times : List Nat) : Option BucketState :=
  bucketRun limit none times

/-! ## Theorems -/

/-- C1: whenever any Redis operation issued during a checkRateLimit call
errors (in particular when the store is unreachable, so every round trip
errors), the catch block absorbs the failure and the call fails open,
returning allowed = true, remainingRequests = maxRequests and
resetTime = now + windowMs; no error reaches the caller. -/
theorem checkRateLimit_fail_open (maxRequests windowMs now : Nat)
    (fails : ROp → Bool) (s : RedisKeyState)
    (h : ∃ sErr, checkRateLimitE maxRequests windowMs now fails s = .error sErr) :
    (checkRateLimit maxRequests windowMs now fails s).1 =
      ⟨true, maxRequests, now + windowMs⟩ := by
  obtain ⟨sErr, hE⟩ := h
  simp [checkRateLimit, hE]

theorem checkRateLimit_fail_open_witness :
    (∃ sErr, checkRateLimitE 2 60000 5000 (fun _ => true) ⟨[1000], none⟩ = .error sErr) ∧
    (checkRateLimit 2 60000 5000 (fun _ => true) ⟨[1000], none⟩).1 = ⟨true, 2, 65000⟩ :=
  ⟨⟨⟨[1000], none⟩, rfl⟩,
    checkRateLimit_fail_open 2 60000 5000 (fun _ => true) ⟨[1000], none⟩
      ⟨⟨[1000], none⟩, rfl⟩⟩

/-- When finishCheck succeeds, the verdict carries the allowed flag it
was given and the state it returns is exactly the state it was given
(zRange is a pure read). -/
lemma finishCheck_ok (maxRequests windowMs now currentCount : Nat) (al : Bool)
    (fails : ROp → Bool) (s3 : RedisKeyState) (res : RateLimitResult)
    (s' : RedisKeyState)
    (hok : finishCheck maxRequests windowMs now currentCount al fails s3 = .ok (res, s')) :
    res.allowed = al ∧ s' = s3 := by
  by_cases hc : 0 < currentCount
  · by_cases hz : fails .zrange
    · simp [finishCheck, hc, hz] at hok
    · simp only [finishCheck, hc, hz, if_true, if_false, Bool.false_eq_true,
        ite_true, ite_false, Except.ok.injEq, Prod.mk.injEq] at hok
      obtain ⟨hres, hs⟩ := hok
      subst hres
      subst hs
      exact ⟨rfl, rfl⟩
  · simp only [finishCheck, hc, if_false, ite_false, Except.ok.injEq,
      Prod.mk.injEq] at hok
    obtain ⟨hres, hs⟩ := hok
    subst hres
    subst hs
    exact ⟨rfl, rfl⟩

/-- C10: when every Redis operation succeeds and the verdict is
allowed = false, the denied call adds no timestamp and sets no expiry:
the stored set afterwards is exactly the prior set with the entries older
than now - windowMs evicted, and the key TTL is unchanged. -/
theorem checkRateLimit_denied_frame (maxRequests windowMs now : Nat)
    (fails : ROp → Bool) (s : RedisKeyState) (res : RateLimitResult)
    (s' : RedisKeyState)
    (hok : checkRateLimitE maxRequests windowMs now fails s = .ok (res, s'))
    (hden : res.allowed = false) :
    s'.entries = zRemWindow now windowMs s.entries ∧ s'.ttl = s.ttl := by
  by_cases h1 : fails .zrem
  · simp [checkRateLimitE, h1] at hok
  by_cases h2 : fails .zcard
  · simp [checkRateLimitE, h1, h2] at hok
  by_cases ha : (zRemWindow now windowMs s.entries).length < maxRequests
  · by_cases h3 : fails .zadd
    · simp [checkRateLimitE, h1, h2, ha, h3] at hok
    by_cases h4 : fails .expire
    · simp [checkRateLimitE, h1, h2, ha, h3, h4] at hok
    · simp only [checkRateLimitE, h1, h2, ha, h3, h4, if_true, if_false] at hok
      have := (finishCheck_ok _ _ _ _ _ _ _ _ _ hok).1
      rw [hden] at this
      cases this
  · simp only [checkRateLimitE, h1, h2, ha, if_true, if_false] at hok
    obtain ⟨-, hs⟩ := finishCheck_ok _ _ _ _ _ _ _ _ _ hok
    subst hs
    exact ⟨rfl, rfl⟩

theorem checkRateLimit_denied_frame_witness :
    checkRateLimitE 1 60000 100000 noFail ⟨[50000], none⟩ =
      .ok (⟨false, 0, 110000⟩, ⟨[50000], none⟩) ∧
    (RateLimitResult.allowed ⟨false, 0, 110000⟩ = false) ∧
    ((⟨[50000], none⟩ : RedisKeyState).entries =
        zRemWindow 100000 60000 (RedisKeyState.mk [50000] none).entries ∧
      (⟨[50000], none⟩ : RedisKeyState).ttl = (RedisKeyState.mk [50000] none).ttl) :=
  ⟨rfl, rfl,
    checkRateLimit_denied_frame 1 60000 100000 noFail ⟨[50000], none⟩
      ⟨false, 0, 110000⟩ ⟨[50000], none⟩ rfl rfl⟩

/-- C2 fails on the code: three checkRateLimit calls for one guest
identity all carrying the same millisecond timestamp (Date.now has
millisecond resolution, so rapid requests collide) are all allowed, even
though guest capacity is 2 and all three fall inside one trailing
60000 ms window.  The zAdd member string toString(now) collides with the
already-stored member, so the second allowed check records nothing and
the count stays below maxRequests forever within that millisecond. -/
theorem slidingWindow_same_millisecond_burst :
    (checkSeq guestTier.maxRequests guestTier.windowMs [1000, 1000, 1000]
        ⟨[], none⟩).1 = [true, true, true] ∧
    guestTier.maxRequests <
      ((checkSeq guestTier.maxRequests guestTier.windowMs [1000, 1000, 1000]
          ⟨[], none⟩).1.count true) := by
  decide

/-- C3 fails on the code: checkRateLimit issues zRemRangeByScore, zCard
and zAdd as separate awaited round trips with no transaction, script or
compare-and-retry, so the read-modify-write is not atomic.  Under the
realizable schedule in which two calls for the same identity (capacity
1) both finish their reads before either writes, both are allowed and
both timestamps land in the store: at time 1001 the trailing window
holds 2 allowed requests, exceeding the capacity bound. -/
theorem interleaved_checks_exceed_capacity :
    interleavedPair 1 60000 1000 1001 ⟨[], none⟩ =
      ((true, true), ⟨[1000, 1001], some 70⟩) ∧
    1 < (zRemWindow 1001 60000
        (interleavedPair 1 60000 1000 1001 ⟨[], none⟩).2.entries).length := by
  decide

/-- Healthy-Redis checkRateLimit in one equation: allowed iff the count
after eviction is below maxRequests, and the stored set afterwards is
the evicted set plus, when allowed, the current timestamp. -/
lemma checkRateLimitOk_spec (maxRequests windowMs t : Nat) (s : RedisKeyState) :
    (checkRateLimitOk maxRequests windowMs t s).1.allowed =
      decide ((zRemWindow t windowMs s.entries).length < maxRequests) ∧
    (checkRateLimitOk maxRequests windowMs t s).2.entries =
      (if (zRemWindow t windowMs s.entries).length < maxRequests
        then zAddNow t (zRemWindow t windowMs s.entries)
        else zRemWindow t windowMs s.entries) := by
  unfold checkRateLimitOk checkRateLimit checkRateLimitE noFail finishCheck
  by_cases hm : (zRemWindow t windowMs s.entries).length < maxRequests <;>
    by_cases hc : 0 < (zRemWindow t windowMs s.entries).length <;>
      simp [hm, hc]

/-- Inserting a timestamp larger than every element appends it. -/
lemma zAddNow_of_forall_lt (t : Nat) (l : List Nat) (h : ∀ x ∈ l, x < t) :
    zAddNow t l = l ++ [t] := by
  induction l with
  | nil => rfl
  | cons a l ih =>
    have ha : a < t := h a (by simp)
    have h1 : ¬ t = a := by omega
    have h2 : ¬ t < a := by omega
    simp only [zAddNow, h1, h2, if_false, ite_false, List.cons_append,
      List.cons.injEq, true_and]
    exact ih fun x hx => h x (by simp [hx])

/-- Evicting at a later time collapses two successive evictions. -/
lemma zRemWindow_of_filter (w tprev t : Nat) (hle : tprev ≤ t) (A : List Nat) :
    zRemWindow t w (A.filter fun τ => tprev < τ + w) =
      A.filter fun τ => t < τ + w := by
  unfold zRemWindow
  rw [List.filter_filter]
  apply List.filter_congr
  intro τ _
  by_cases h : t < τ + w
  · have h' : tprev < τ + w := by omega
    simp [h, h']
  · simp [h]

lemma windowCount_append (w t : Nat) (A B : List Nat) :
    windowCount w t (A ++ B) = windowCount w t A + windowCount w t B := by
  simp [windowCount, List.countP_append]

/-- Any trailing window ending at t at or after a step time tstep only
sees timestamps that were unevicted at that step, provided they precede
the step. -/
lemma windowCount_le_filter (w t tstep : Nat) (hts : tstep ≤ t) (A : List Nat) :
    windowCount w t A ≤ (A.filter fun τ => tstep < τ + w).length := by
  rw [windowCount, ← List.countP_eq_length_filter]
  apply List.countP_mono_left
  intro τ _ hτ
  simp only [Bool.and_eq_true, decide_eq_true_eq] at hτ
  simp only [decide_eq_true_eq]
  omega

/-- Main induction for the amended sliding-window bound: processing
strictly increasing call times from a store holding exactly the
previously allowed times still inside the window preserves, for every
time t, the bound windowCount ≤ maxRequests over all allowed times. -/
lemma allowedList_window_le (m w : Nat) (hw : 0 < w) :
    ∀ (times : List Nat) (s : RedisKeyState) (A : List Nat) (tprev : Nat),
      List.Pairwise (· < ·) times →
      (∀ u ∈ times, tprev ≤ u) →
      (∀ τ ∈ A, ∀ u ∈ times, τ < u) →
      s.entries = (A.filter fun τ => tprev < τ + w) →
      (∀ t, windowCount w t A ≤ m) →
      ∀ t, windowCount w t (A ++ allowedList m w times s) ≤ m := by
  intro times
  induction times with
  | nil =>
    intro s A tprev _ _ _ _ hbound t
    simpa [allowedList] using hbound t
  | cons u ts ih =>
    intro s A tprev hpw htp hA hs hbound t
    rw [List.pairwise_cons] at hpw
    obtain ⟨hu_lt, hpw'⟩ := hpw
    have htu : tprev ≤ u := htp u (by simp)
    have hAu : ∀ τ ∈ A, τ < u := fun τ hτ => hA τ hτ u (by simp)
    have hstep := checkRateLimitOk_spec m w u s
    have hevict : zRemWindow u w s.entries = (A.filter fun τ => u < τ + w) := by
      rw [hs]
      exact zRemWindow_of_filter w tprev u htu A
    by_cases hcnt : (zRemWindow u w s.entries).length < m
    · have hallowed : (checkRateLimitOk m w u s).1.allowed = true := by
        rw [hstep.1]
        exact decide_eq_true hcnt
      have hcnt' : (A.filter fun τ => u < τ + w).length < m := by
        rw [← hevict]
        exact hcnt
      have hentries : (checkRateLimitOk m w u s).2.entries =
          ((A ++ [u]).filter fun τ => u < τ + w) := by
        rw [hstep.2, if_pos hcnt, hevict,
          zAddNow_of_forall_lt u _ fun x hx => hAu x (List.mem_of_mem_filter hx),
          List.filter_append]
        congr 1
        simp [hw]
      have hbound' : ∀ t', windowCount w t' (A ++ [u]) ≤ m := by
        intro t'
        rw [windowCount_append]
        by_cases hwin : u ≤ t'
        · have h1 : windowCount w t' A ≤ (A.filter fun τ => u < τ + w).length :=
            windowCount_le_filter w t' u hwin A
          have h2 : windowCount w t' [u] ≤ 1 := by
            simp only [windowCount, List.countP_cons, List.countP_nil]
            split <;> omega
          omega
        · have h2 : windowCount w t' [u] = 0 := by
            simp [windowCount, List.countP_cons, hwin]
          rw [h2]
          have := hbound t'
          omega
      have hrec := ih (checkRateLimitOk m w u s).2 (A ++ [u]) u hpw'
        (fun v hv => le_of_lt (hu_lt v hv))
        (fun τ hτ v hv => by
          rcases List.mem_append.mp hτ with hmem | hmem
          · exact lt_trans (hAu τ hmem) (hu_lt v hv)
          · have : τ = u := by simpa using hmem
            subst this
            exact hu_lt v hv)
        hentries hbound' t
      simpa [allowedList, hallowed, List.append_assoc] using hrec
    · have hallowed : (checkRateLimitOk m w u s).1.allowed = false := by
        rw [hstep.1]
        simpa using hcnt
      have hentries : (checkRateLimitOk m w u s).2.entries =
          (A.filter fun τ => u < τ + w) := by
        rw [hstep.2, if_neg hcnt, hevict]
      have hrec := ih (checkRateLimitOk m w u s).2 A u hpw'
        (fun v hv => le_of_lt (hu_lt v hv))
        (fun τ hτ v hv => lt_trans (hAu τ hτ) (hu_lt v hv))
        hentries hbound t
      simpa [allowedList, hallowed] using hrec

/-- C2 amended: for every tier and every sequence of checkRateLimit
calls for one identity against healthy Redis whose call timestamps
strictly increase (no two calls within the same millisecond) and whose
window is positive, the number of allowed requests in any trailing
interval of length windowMs ending at any time t never exceeds
maxRequests; a check is allowed iff the count of surviving recorded
timestamps is below maxRequests, and each allowed check records its
timestamp. -/
theorem slidingWindow_bound_strictMono (maxRequests windowMs : Nat)
    (hw : 0 < windowMs) (times : List Nat)
    (hmono : List.Chain' (· < ·) times) (t : Nat) :
    windowCount windowMs t (allowedList maxRequests windowMs times ⟨[], none⟩) ≤
      maxRequests := by
  have hpw : List.Pairwise (· < ·) times := List.chain'_iff_pairwise.mp hmono
  have hmain := allowedList_window_le maxRequests windowMs hw times ⟨[], none⟩ [] 0
    hpw (fun u _ => Nat.zero_le u) (by simp) (by simp)
    (fun t' => by simp [windowCount]) t
  simpa using hmain

theorem slidingWindow_bound_strictMono_witness :
    0 < 60000 ∧ List.Chain' (· < ·) [1000, 2000, 3000] ∧
    windowCount 60000 3000
        (allowedList 2 60000 [1000, 2000, 3000] ⟨[], none⟩) ≤ 2 :=
  ⟨by decide, by norm_num [List.chain'_cons],
    slidingWindow_bound_strictMono 2 60000 (by decide) [1000, 2000, 3000]
      (by norm_num [List.chain'_cons]) 3000⟩

/-- The drain loop claims slots only under its guard, so it never pushes
activeWorkers beyond concurrency. -/
lemma drainLoop_active_le (conc : Nat) (q : List Item) : ∀ a, a ≤ conc →
    (drainLoop conc a q).1 ≤ conc := by
  induction q with
  | nil => intro a h; simpa [drainLoop] using h
  | cons i rest ih =>
    intro a h
    by_cases ha : a < conc
    · simpa [drainLoop, ha] using ih (a + 1) ha
    · simpa [drainLoop, ha] using h

/-- The drain loop only shifts items off the queue. -/
lemma drainLoop_queue_le (conc : Nat) (q : List Item) : ∀ a,
    (drainLoop conc a q).2.length ≤ q.length := by
  induction q with
  | nil => intro a; simp [drainLoop]
  | cons i rest ih =>
    intro a
    by_cases ha : a < conc
    · simp only [drainLoop, ha, if_true]
      exact le_trans (ih (a + 1)) (by simp)
    · simp [drainLoop, ha]

/-- The gated handler never touches the request queue in any branch. -/
lemma withRateLimitHandler_queue_eq (conc : Nat) (rl : RateLimitResult)
    (now : Nat) (it : Item) (s : PoolState) :
    ((withRateLimitHandler conc rl now it s).2).requestQueue = s.requestQueue := by
  unfold withRateLimitHandler processImmediate
  by_cases hrl : rl.allowed = false <;> by_cases hs : s.activeWorkers ≥ conc <;>
    simp [hrl, hs]

/-- One event-loop event preserves the active-worker bound. -/
lemma stepEv_active_le (conc maxQ : Nat) (s : PoolState) (e : Ev)
    (h : s.activeWorkers ≤ conc) :
    (stepEv conc maxQ s e).activeWorkers ≤ conc := by
  cases e with
  | gated rl now it =>
    unfold stepEv withRateLimitHandler processImmediate
    by_cases hrl : rl.allowed = false
    · simpa [hrl] using h
    · by_cases hs : s.activeWorkers ≥ conc
      · simpa [hrl, hs] using h
      · simp [hrl, hs]
        omega
  | unthrottled it =>
    unfold stepEv withoutRateLimitHandler
    by_cases hq : s.requestQueue.length ≥ maxQ
    · simpa [hq] using h
    · simpa [hq, processNext] using
        drainLoop_active_le conc (s.requestQueue ++ [it]) s.activeWorkers h
  | workerDone =>
    unfold stepEv completeWorker processNext
    exact drainLoop_active_le conc s.requestQueue (s.activeWorkers - 1) (by omega)

/-- One event-loop event preserves the queue-length bound. -/
lemma stepEv_queue_le (conc maxQ : Nat) (s : PoolState) (e : Ev)
    (h : s.requestQueue.length ≤ maxQ) :
    (stepEv conc maxQ s e).requestQueue.length ≤ maxQ := by
  cases e with
  | gated rl now it =>
    have hq := withRateLimitHandler_queue_eq conc rl now it s
    simpa [stepEv, hq] using h
  | unthrottled it =>
    unfold stepEv withoutRateLimitHandler
    by_cases hq : s.requestQueue.length ≥ maxQ
    · simpa [hq] using h
    · simp only [hq, if_false, ite_false, processNext]
      have := drainLoop_queue_le conc (s.requestQueue ++ [it]) s.activeWorkers
      simp only [List.length_append, List.length_singleton] at this
      omega
  | workerDone =>
    unfold stepEv completeWorker processNext
    exact le_trans (drainLoop_queue_le conc s.requestQueue (s.activeWorkers - 1)) h

lemma runFrom_active_le (conc maxQ : Nat) (evs : List Ev) : ∀ (s : PoolState),
    s.activeWorkers ≤ conc →
    (evs.foldl (stepEv conc maxQ) s).activeWorkers ≤ conc := by
  induction evs with
  | nil => intro s h; simpa using h
  | cons e rest ih =>
    intro s h
    exact ih _ (stepEv_active_le conc maxQ s e h)

lemma runFrom_queue_le (conc maxQ : Nat) (evs : List Ev) : ∀ (s : PoolState),
    s.requestQueue.length ≤ maxQ →
    (evs.foldl (stepEv conc maxQ) s).requestQueue.length ≤ maxQ := by
  induction evs with
  | nil => intro s h; simpa using h
  | cons e rest ih =>
    intro s h
    exact ih _ (stepEv_queue_le conc maxQ s e h)

/-- C4: across every interleaving of handler and completion events from
server start, activeWorkers never exceeds concurrency (slots are claimed
only under the guard activeWorkers < concurrency, both in the drain loop
and in processImmediate), and whenever no slot is free processImmediate
returns null with the state, in particular the queue, untouched. -/
theorem pool_active_bounded (conc maxQ : Nat) (evs : List Ev) :
    (runEvents conc maxQ evs).activeWorkers ≤ conc ∧
    (∀ s : PoolState, conc ≤ s.activeWorkers →
      processImmediate conc s = (false, s)) := by
  refine ⟨runFrom_active_le conc maxQ evs ⟨0, []⟩ (Nat.zero_le _), ?_⟩
  intro s hs
  simp [processImmediate, hs]

theorem pool_active_bounded_witness :
    (runEvents 4 200 [Ev.unthrottled ⟨"hi", 0⟩, Ev.workerDone]).activeWorkers ≤ 4 ∧
    processImmediate 4 ⟨4, []⟩ = (false, ⟨4, []⟩) :=
  ⟨(pool_active_bounded 4 200 [Ev.unthrottled ⟨"hi", 0⟩, Ev.workerDone]).1,
    (pool_active_bounded 4 200 []).2 ⟨4, []⟩ (by decide)⟩

/-- C5: an unthrottled request arriving while the queue already holds
maxQueueSize items is rejected synchronously with the terminal 503
queue-full verdict and nothing is enqueued; consequently, across every
interleaving of events from server start, the queue length never exceeds
maxQueueSize. -/
theorem queue_length_bounded (conc maxQ : Nat) (evs : List Ev) :
    (runEvents conc maxQ evs).requestQueue.length ≤ maxQ ∧
    (∀ (it : Item) (s : PoolState), maxQ ≤ s.requestQueue.length →
      withoutRateLimitHandler conc maxQ it s = (.queueFull503, s)) := by
  refine ⟨runFrom_queue_le conc maxQ evs ⟨0, []⟩ (Nat.zero_le _), ?_⟩
  intro it s hs
  simp [withoutRateLimitHandler, hs]

theorem queue_length_bounded_witness :
    (runEvents 4 1 [Ev.unthrottled ⟨"a", 0⟩, Ev.unthrottled ⟨"b", 1⟩]).requestQueue.length ≤ 1 ∧
    withoutRateLimitHandler 4 0 ⟨"c", 2⟩ ⟨0, []⟩ = (.queueFull503, ⟨0, []⟩) :=
  ⟨(queue_length_bounded 4 1 [Ev.unthrottled ⟨"a", 0⟩, Ev.unthrottled ⟨"b", 1⟩]).1,
    (queue_length_bounded 4 0 []).2 ⟨"c", 2⟩ ⟨0, []⟩ (by decide)⟩

/-- C6: a gated request that passed the rate-limit check while the pool
is saturated terminates immediately with the 429 overloaded verdict
carrying the current queue length and the concurrency, leaving the state
untouched; and the gated path never enqueues anything in any branch. -/
theorem gated_overload_never_queues (conc : Nat) (rl : RateLimitResult)
    (now : Nat) (it : Item) (s : PoolState) :
    (rl.allowed = true → conc ≤ s.activeWorkers →
      withRateLimitHandler conc rl now it s =
        (.overloaded429 s.requestQueue.length conc, s)) ∧
    ((withRateLimitHandler conc rl now it s).2).requestQueue = s.requestQueue := by
  refine ⟨?_, withRateLimitHandler_queue_eq conc rl now it s⟩
  intro hrl hs
  simp [withRateLimitHandler, processImmediate, hrl, hs]

theorem gated_overload_never_queues_witness :
    ((RateLimitResult.allowed ⟨true, 1, 61000⟩ = true →
        4 ≤ (PoolState.mk 4 [⟨"q", 5⟩]).activeWorkers →
        withRateLimitHandler 4 ⟨true, 1, 61000⟩ 1000 ⟨"m", 1000⟩ ⟨4, [⟨"q", 5⟩]⟩ =
          (.overloaded429 (PoolState.mk 4 [⟨"q", 5⟩]).requestQueue.length 4,
            ⟨4, [⟨"q", 5⟩]⟩)) ∧
      ((withRateLimitHandler 4 ⟨true, 1, 61000⟩ 1000 ⟨"m", 1000⟩
          ⟨4, [⟨"q", 5⟩]⟩).2).requestQueue =
        (PoolState.mk 4 [⟨"q", 5⟩]).requestQueue) ∧
    withRateLimitHandler 4 ⟨true, 1, 61000⟩ 1000 ⟨"m", 1000⟩ ⟨4, [⟨"q", 5⟩]⟩ =
      (.overloaded429 1 4, ⟨4, [⟨"q", 5⟩]⟩) :=
  ⟨gated_overload_never_queues 4 ⟨true, 1, 61000⟩ 1000 ⟨"m", 1000⟩ ⟨4, [⟨"q", 5⟩]⟩,
    (gated_overload_never_queues 4 ⟨true, 1, 61000⟩ 1000 ⟨"m", 1000⟩
        ⟨4, [⟨"q", 5⟩]⟩).1 rfl (by decide)⟩

/-- C7: when the work of an unthrottled request completes only once the
timeout, measured from the item's enqueue timestamp, has already
elapsed, the caller receives the 408 timeout outcome and never the late
computed result: either the independent timer settled the race first, or
the worker body itself discards the result and rejects with a timeout
because elapsed is at least timeoutMs. -/
theorem late_completion_times_out (timeoutMs t0 t1 : Nat) (response : String)
    (h : timeoutMs ≤ t1 - t0) :
    unthrottledResponse timeoutMs t0 t1 response = .timeout408 := by
  unfold unthrottledResponse raceSettled completeWork respondWith
  by_cases hrace : t1 < t0 + timeoutMs
  · simp [hrace, h]
  · simp [hrace]

theorem late_completion_times_out_witness :
    requestTimeoutMs ≤ 9000 - 1000 ∧
    unthrottledResponse requestTimeoutMs 1000 9000 "slow reply" = .timeout408 :=
  ⟨by decide, late_completion_times_out requestTimeoutMs 1000 9000 "slow reply" (by decide)⟩

/-- C8: the unthrottled response is the race of the item's completion
against an independent timer started at enqueue time t0 and firing at
t0 + timeoutMs, settled by a one-shot cell.  If the timer fires first
the eventual work result is ignored (the settled cell absorbs it); if
completion arrives first the race is settled with the computed result
and the timer's later firing is a no-op on the settled cell. -/
theorem race_first_settler_wins (timeoutMs t0 t1 : Nat) (response : String) :
    (t0 + timeoutMs ≤ t1 →
      settleCell (settleCell none .timedOut)
          (completeWork timeoutMs t0 t1 response) = some .timedOut) ∧
    (t0 ≤ t1 → t1 < t0 + timeoutMs →
      settleCell (settleCell none (completeWork timeoutMs t0 t1 response))
          .timedOut = some (.res response)) ∧
    (∀ (winner late : WorkOutcome), settleCell (some winner) late = some winner) := by
  refine ⟨fun _ => rfl, fun h01 hlt => ?_, fun _ _ => rfl⟩
  have : ¬ timeoutMs ≤ t1 - t0 := by omega
  simp [completeWork, settleCell, this]

theorem race_first_settler_wins_witness :
    ((1000 + requestTimeoutMs ≤ 9000 →
        settleCell (settleCell none .timedOut)
            (completeWork requestTimeoutMs 1000 9000 "late") = some .timedOut) ∧
      (1000 ≤ 9000 → 9000 < 1000 + requestTimeoutMs →
        settleCell (settleCell none (completeWork requestTimeoutMs 1000 9000 "late"))
            .timedOut = some (.res "late")) ∧
      (∀ (winner late : WorkOutcome), settleCell (some winner) late = some winner)) ∧
    settleCell (settleCell none .timedOut)
        (completeWork requestTimeoutMs 1000 9000 "late") = some .timedOut :=
  ⟨race_first_settler_wins requestTimeoutMs 1000 9000 "late",
    (race_first_settler_wins requestTimeoutMs 1000 9000 "late").1 (by decide)⟩

/-- The refill never leaves the interval from 0 to limit (granted the
clock did not run backwards since the stored lastRefill), and stamps
lastRefill with now. -/
lemma refillState_bounds (limit now : Nat) (st : Option BucketState)
    (h : ∀ b, st = some b →
      0 ≤ b.tokens ∧ b.tokens ≤ (limit : ℚ) ∧ b.lastRefill ≤ now) :
    0 ≤ (refillState limit now st).tokens ∧
    (refillState limit now st).tokens ≤ (limit : ℚ) ∧
    (refillState limit now st).lastRefill = now := by
  cases st with
  | none =>
    simp only [refillState]
    exact ⟨by positivity, le_refl _, trivial⟩
  | some b =>
    obtain ⟨h0, h1, h2⟩ := h b rfl
    obtain ⟨tk, lr⟩ := b
    have h0' : (0 : ℚ) ≤ tk := h0
    have he : (0 : ℚ) ≤ ((now : ℚ) - (lr : ℚ)) / 1000 := by
      have : (lr : ℚ) ≤ (now : ℚ) := by exact_mod_cast h2
      linarith
    have hr : (0 : ℚ) ≤ (limit : ℚ) / 60 := by positivity
    have hm := mul_nonneg he hr
    simp only [refillState]
    exact ⟨le_min (by positivity) (by linarith), min_le_left _ _, trivial⟩

/-- One /chat call preserves the bucket invariant. -/
lemma chatTokenBucket_bounds (limit now : Nat) (st : Option BucketState)
    (h : ∀ b, st = some b →
      0 ≤ b.tokens ∧ b.tokens ≤ (limit : ℚ) ∧ b.lastRefill ≤ now) :
    0 ≤ (chatTokenBucket limit now st).2.tokens ∧
    (chatTokenBucket limit now st).2.tokens ≤ (limit : ℚ) ∧
    (chatTokenBucket limit now st).2.lastRefill = now := by
  obtain ⟨h0, h1, h2⟩ := refillState_bounds limit now st h
  unfold chatTokenBucket
  by_cases hc : 1 ≤ (refillState limit now st).tokens
  · simp only [hc, if_true, ite_true]
    exact ⟨by linarith, by linarith, h2⟩
  · simp only [hc, if_false, ite_false]
    exact ⟨h0, h1, h2⟩

lemma bucketRun_bounds (limit : Nat) : ∀ (ts : List Nat) (b : BucketState),
    0 ≤ b.tokens → b.tokens ≤ (limit : ℚ) →
    List.Chain' (· ≤ ·) (b.lastRefill :: ts) →
    ∀ st', bucketRun limit (some b) ts = some st' →
      0 ≤ st'.tokens ∧ st'.tokens ≤ (limit : ℚ) := by
  intro ts
  induction ts with
  | nil =>
    intro b h0 h1 _ st' hrun
    cases hrun
    exact ⟨h0, h1⟩
  | cons t ts ih =>
    intro b h0 h1 hch st' hrun
    rw [List.chain'_cons] at hch
    obtain ⟨hle, hch'⟩ := hch
    have hb := chatTokenBucket_bounds limit t (some b)
      (by intro b' hb'; cases hb'; exact ⟨h0, h1, hle⟩)
    refine ih (chatTokenBucket limit t (some b)).2 hb.1 hb.2.1 ?_ st' ?_
    · rw [hb.2.2]
      exact hch'
    · simpa [bucketRun] using hrun

/-- C9: in the token-bucket variant, across every sequence of /chat
calls for one identity whose call times never run backwards, the stored
tokens value always lies between 0 and the tier limit: the refill adds
elapsed time times limit / 60 capped at limit, and one token is
subtracted only when at least one token is available. -/
theorem tokenBucket_tokens_in_range (limit : Nat) (times : List Nat)
    (hmono : List.Chain' (· ≤ ·) times) (st : BucketState)
    (hrun : bucketTrace limit times = some st) :
    0 ≤ st.tokens ∧ st.tokens ≤ (limit : ℚ) := by
  cases times with
  | nil => cases hrun
  | cons t ts =>
    rw [List.chain'_cons'] at hmono
    have hb := chatTokenBucket_bounds limit t none (by intro b' hb'; cases hb')
    refine bucketRun_bounds limit ts (chatTokenBucket limit t none).2 hb.1 hb.2.1
      ?_ st ?_
    · rw [hb.2.2]
      exact List.chain'_cons'.mpr hmono
    · simpa [bucketTrace, bucketRun] using hrun

theorem tokenBucket_tokens_in_range_witness :
    List.Chain' (· ≤ ·) [0, 60000] ∧
    bucketTrace 2 [0, 60000] = some ⟨1, 60000⟩ ∧
    (0 ≤ (BucketState.mk 1 60000).tokens ∧
      (BucketState.mk 1 60000).tokens ≤ ((2 : Nat) : ℚ)) :=
  ⟨by norm_num [List.chain'_cons],
    by norm_num [bucketTrace, bucketRun, chatTokenBucket, refillState],
    tokenBucket_tokens_in_range 2 [0, 60000] (by norm_num [List.chain'_cons])
      ⟨1, 60000⟩
      (by norm_num [bucketTrace, bucketRun, chatTokenBucket, refillState])⟩

end RateLimitServer
